import Mathlib

/-!
Shallow embedding of the chunked-embedding pipeline found in
`examples/chatgpt/rag-quickstart/gcp/Getting_started_with_bigquery_vector_search_and_openai.ipynb`.

The tokenizer (tiktoken), the embedding service and the chat-completion
service are external collaborators of the notebook; they enter the embedding
as explicit function parameters (`encode`, `decode`, `embed`, `complete`).
Python calls that can raise are modelled with `Except String`; the embedding
vector returned by the service is an abstract type parameter `V` (the
notebook never computes on its entries, it only stores and forwards them).
-/

set_option autoImplicit false

namespace BigQueryRag

universe u

/-- One pass of the `while (batch := tuple(islice(it, n)))` loop of the
source function `batched`: take `n` items, recurse on the rest.  `fuel`
bounds the recursion; callers pass the input length, which is enough
whenever `1 ≤ n`. -/
def chunkListAux {α : Type u} (n : Nat) : Nat → List α → List (List α)
  | 0, _ => []
  | _ + 1, [] => []
  | fuel + 1, x :: xs => (x :: xs).take n :: chunkListAux n fuel ((x :: xs).drop n)

/-- `batched(iterable, n)` from the notebook: raises
`ValueError("n must be at least one")` when `n < 1`, otherwise yields
consecutive batches of `n` items each, the last batch possibly shorter. -/
def batched {α : Type u} (xs : List α) (n : Int) : Except String (List (List α)) :=
  if n < 1 then .error "n must be at least one"
  else .ok (chunkListAux n.toNat xs.length xs)

/-- `chunked_tokens(text, chunk_length, encoding_name)` from the notebook:
encode the text into a token list with the tiktoken encoding (the parameter
`encode`) and batch the token list into groups of `chunk_length`. -/
def chunked_tokens (encode : String → List Nat) (text : String) (chunk_length : Int) :
    Except String (List (List Nat)) :=
  batched (encode text) chunk_length

/-- A concrete stand-in tokenizer encoding used to evaluate the pipeline on
closed inputs: one token per character, the token id being the code point. -/
def charEncode (s : String) : List Nat :=
  s.data.map Char.toNat

/-- Decoder matching `charEncode`. -/
def charDecode (l : List Nat) : String :=
  String.mk (l.map Char.ofNat)

/-- Equality of `Except` results is decidable; used to evaluate the pipeline
on closed inputs. -/
instance instDecidableEqExcept {ε : Type u} {α : Type u} [DecidableEq ε] [DecidableEq α] :
    DecidableEq (Except ε α)
  | .error a, .error b =>
    decidable_of_iff (a = b) ⟨fun h => by rw [h], fun h => by cases h; rfl⟩
  | .error _, .ok _ => isFalse (fun h => by cases h)
  | .ok _, .error _ => isFalse (fun h => by cases h)
  | .ok a, .ok b =>
    decidable_of_iff (a = b) ⟨fun h => by rw [h], fun h => by cases h; rfl⟩

theorem chunkListAux_nil {α : Type u} (n fuel : Nat) :
    chunkListAux n fuel ([] : List α) = [] := by
  cases fuel <;> rfl

theorem chunkListAux_flatten {α : Type u} (n : Nat) (hn : 1 ≤ n) :
    ∀ (fuel : Nat) (xs : List α), xs.length ≤ fuel →
      (chunkListAux n fuel xs).flatten = xs := by
  intro fuel
  induction fuel with
  | zero =>
    intro xs h
    have hx : xs = [] := List.eq_nil_of_length_eq_zero (Nat.le_zero.mp h)
    subst hx
    simp [chunkListAux]
  | succ fuel ih =>
    intro xs h
    cases xs with
    | nil => simp [chunkListAux]
    | cons x l =>
      have hd : ((x :: l).drop n).length ≤ fuel := by
        simp only [List.length_drop, List.length_cons] at *
        omega
      simp only [chunkListAux, List.flatten_cons]
      rw [ih _ hd, List.take_append_drop]

theorem batched_ok_flatten {α : Type u} {xs : List α} {n : Int} {cs : List (List α)}
    (h : batched xs n = .ok cs) : cs.flatten = xs := by
  unfold batched at h
  by_cases hn : n < 1
  · simp [hn] at h
  · simp [hn] at h
    have h1 : 1 ≤ n.toNat := by omega
    rw [← h]
    exact chunkListAux_flatten n.toNat h1 xs.length xs (Nat.le_refl _)

/-- C2: concatenating, in order, the token chunks produced by
`chunked_tokens` reproduces exactly the token sequence obtained by encoding
the text: no token is dropped, duplicated, or reordered. -/
theorem chunked_tokens_concat_exact (encode : String → List Nat) (text : String)
    (M : Int) (cs : List (List Nat)) (h : chunked_tokens encode text M = .ok cs) :
    cs.flatten = encode text :=
  batched_ok_flatten h

/-- Witness for `chunked_tokens_concat_exact` at text `"abcde"`, `M = 2`. -/
theorem chunked_tokens_concat_exact_witness :
    chunked_tokens charEncode "abcde" 2 = .ok [[97, 98], [99, 100], [101]] ∧
      ([[97, 98], [99, 100], [101]] : List (List Nat)).flatten = charEncode "abcde" :=
  ⟨by decide, chunked_tokens_concat_exact charEncode "abcde" 2 _ (by decide)⟩

theorem chunkListAux_sizes {α : Type u} (n : Nat) (hn : 1 ≤ n) :
    ∀ (fuel : Nat) (xs : List α), xs.length ≤ fuel →
      (∀ c ∈ (chunkListAux n fuel xs).dropLast, c.length = n) ∧
      (∀ c ∈ chunkListAux n fuel xs, 1 ≤ c.length ∧ c.length ≤ n) := by
  intro fuel
  induction fuel with
  | zero =>
    intro xs h
    have hx : xs = [] := List.eq_nil_of_length_eq_zero (Nat.le_zero.mp h)
    subst hx
    simp [chunkListAux]
  | succ fuel ih =>
    intro xs h
    cases xs with
    | nil => simp [chunkListAux]
    | cons x l =>
      by_cases hdrop : (x :: l).drop n = []
      · have heq : chunkListAux n (fuel + 1) (x :: l) = [(x :: l).take n] := by
          simp [chunkListAux, hdrop, chunkListAux_nil]
        rw [heq]
        refine ⟨by simp, ?_⟩
        intro c hc
        rw [List.mem_singleton] at hc
        subst hc
        simp only [List.length_take, List.length_cons]
        omega
      · have hlt : n < (x :: l).length := by
          rcases Nat.lt_or_ge n (x :: l).length with hlt | hge
          · exact hlt
          · exact absurd (List.drop_eq_nil_iff.mpr hge) hdrop
        have hd2 : ((x :: l).drop n).length ≤ fuel := by
          simp only [List.length_drop, List.length_cons] at *
          omega
        have hrest := ih ((x :: l).drop n) hd2
        have hne : chunkListAux n fuel ((x :: l).drop n) ≠ [] := by
          cases hd : (x :: l).drop n with
          | nil => exact absurd hd hdrop
          | cons y ys =>
            rw [hd] at hd2
            cases fuel with
            | zero => simp at hd2
            | succ f => simp [chunkListAux]
        have heq : chunkListAux n (fuel + 1) (x :: l) =
            (x :: l).take n :: chunkListAux n fuel ((x :: l).drop n) := rfl
        rw [heq]
        constructor
        · intro c hc
          rw [List.dropLast_cons_of_ne_nil hne, List.mem_cons] at hc
          rcases hc with hc | hc
          · subst hc
            simp only [List.length_take]
            omega
          · exact hrest.1 c hc
        · intro c hc
          rcases List.mem_cons.mp hc with hc | hc
          · subst hc
            simp only [List.length_take, List.length_cons]
            omega
          · exact hrest.2 c hc

theorem chunkListAux_one {α : Type u} :
    ∀ (fuel : Nat) (xs : List α), xs.length ≤ fuel →
      chunkListAux 1 fuel xs = xs.map (fun a => [a]) := by
  intro fuel
  induction fuel with
  | zero =>
    intro xs h
    have hx : xs = [] := List.eq_nil_of_length_eq_zero (Nat.le_zero.mp h)
    subst hx
    simp [chunkListAux]
  | succ fuel ih =>
    intro xs h
    cases xs with
    | nil => simp [chunkListAux]
    | cons x l =>
      have hl : l.length ≤ fuel := by
        simp only [List.length_cons] at h
        omega
      simp only [chunkListAux, List.take_succ_cons, List.take_zero,
        List.drop_succ_cons, List.drop_zero, List.map_cons]
      rw [ih l hl]

/-- C3: every chunk produced by `chunked_tokens` except possibly the last has
exactly `max_tokens` tokens, every chunk (the last included) has between `1`
and `max_tokens` tokens, an empty token sequence yields zero chunks, and
`max_tokens = 1` yields one singleton chunk per token. -/
theorem chunked_tokens_chunk_sizes (encode : String → List Nat) (text : String)
    (M : Int) (cs : List (List Nat)) (h : chunked_tokens encode text M = .ok cs) :
    (∀ c ∈ cs.dropLast, c.length = M.toNat) ∧
    (∀ c ∈ cs, 1 ≤ c.length ∧ c.length ≤ M.toNat) ∧
    (encode text = [] → cs = []) ∧
    (M = 1 → cs = (encode text).map (fun t => [t])) := by
  unfold chunked_tokens batched at h
  by_cases hn : M < 1
  · simp [hn] at h
  · simp only [hn, if_false, Except.ok.injEq] at h
    have h1 : 1 ≤ M.toNat := by omega
    subst h
    refine ⟨(chunkListAux_sizes M.toNat h1 _ _ (Nat.le_refl _)).1,
      (chunkListAux_sizes M.toNat h1 _ _ (Nat.le_refl _)).2, ?_, ?_⟩
    · intro he
      rw [he]
      exact chunkListAux_nil _ _
    · intro hM
      have : M.toNat = 1 := by omega
      rw [this]
      exact chunkListAux_one _ _ (Nat.le_refl _)

/-- Witness for `chunked_tokens_chunk_sizes` at text `"abcde"`, `M = 2` and
at the boundary `M = 1`. -/
theorem chunked_tokens_chunk_sizes_witness :
    chunked_tokens charEncode "abcde" 2 = .ok [[97, 98], [99, 100], [101]] ∧
      ((∀ c ∈ ([[97, 98], [99, 100], [101]] : List (List Nat)).dropLast, c.length = (2 : Int).toNat) ∧
        (∀ c ∈ ([[97, 98], [99, 100], [101]] : List (List Nat)), 1 ≤ c.length ∧ c.length ≤ (2 : Int).toNat) ∧
        (charEncode "abcde" = [] → ([[97, 98], [99, 100], [101]] : List (List Nat)) = []) ∧
        ((2 : Int) = 1 → ([[97, 98], [99, 100], [101]] : List (List Nat)) = (charEncode "abcde").map (fun t => [t]))) ∧
      chunked_tokens charEncode "abc" 1 = .ok ((charEncode "abc").map (fun t => [t])) :=
  ⟨by decide, chunked_tokens_chunk_sizes charEncode "abcde" 2 _ (by decide),
    ((chunked_tokens_chunk_sizes charEncode "abc" 1 [[97], [98], [99]] (by decide)).2.2.2 rfl) ▸ (by decide)⟩

/-- C5: with `max_tokens < 1` the splitter fails fast with the
`ValueError("n must be at least one")` raised by `batched`, producing no
chunk; with `max_tokens ≥ 1` that error branch is unreachable and chunking
succeeds. -/
theorem chunked_tokens_invalid_max_tokens (encode : String → List Nat)
    (text : String) (M : Int) :
    (M < 1 → chunked_tokens encode text M = .error "n must be at least one") ∧
    (1 ≤ M → ∃ cs, chunked_tokens encode text M = .ok cs) := by
  constructor
  · intro h
    unfold chunked_tokens batched
    rw [if_pos h]
  · intro h
    unfold chunked_tokens batched
    rw [if_neg (by omega)]
    exact ⟨_, rfl⟩

/-- Witness for `chunked_tokens_invalid_max_tokens` at `M = -3` (error) and
`M = 1` (success). -/
theorem chunked_tokens_invalid_max_tokens_witness :
    chunked_tokens charEncode "ab" (-3) = .error "n must be at least one" ∧
      ∃ cs, chunked_tokens charEncode "ab" 1 = .ok cs :=
  ⟨(chunked_tokens_invalid_max_tokens charEncode "ab" (-3)).1 (by decide),
    (chunked_tokens_invalid_max_tokens charEncode "ab" 1).2 (by decide)⟩

/-- C8: the splitter is deterministic and idempotent: two calls with the same
arguments give the same result, and the result depends on the text only
through its token sequence under the fixed encoding. -/
theorem chunked_tokens_deterministic (encode : String → List Nat)
    (t1 t2 : String) (M : Int) :
    chunked_tokens encode t1 M = chunked_tokens encode t1 M ∧
    (encode t1 = encode t2 → chunked_tokens encode t1 M = chunked_tokens encode t2 M) :=
  ⟨rfl, fun h => by unfold chunked_tokens batched; rw [h]⟩

/-- Witness for `chunked_tokens_deterministic` at text `"ab"`, `M = 2`. -/
theorem chunked_tokens_deterministic_witness :
    chunked_tokens charEncode "ab" 2 = chunked_tokens charEncode "ab" 2 :=
  (chunked_tokens_deterministic charEncode "ab" "ab" 2).2 rfl

/-- The Python `chunked_tokens` function is a generator: this records the
chunk list it ranges over together with the iteration cursor.  Consuming the
generator advances the cursor to the end. -/
structure TokenGen where
  chunks : List (List Nat)
  pos : Nat
deriving DecidableEq

/-- Fully iterate a generator: return the elements not yet consumed, and the
exhausted generator object. -/
def TokenGen.iterate (g : TokenGen) : List (List Nat) × TokenGen :=
  (g.chunks.drop g.pos, { chunks := g.chunks, pos := g.chunks.length })

/-- `chunked_tokens` viewed as what the Python call expression returns: a
fresh generator positioned at the start of the chunk list. -/
def chunked_tokens_gen (encode : String → List Nat) (text : String)
    (chunk_length : Int) : Except String TokenGen :=
  match chunked_tokens encode text chunk_length with
  | .error e => .error e
  | .ok cs => .ok { chunks := cs, pos := 0 }

/-- C7 counterexample: the value returned by `chunked_tokens` is a one-shot
generator, not a restartable sequence.  On `"ab"` with `max_tokens = 2` the
first iteration yields the single chunk `[[97, 98]]`, but iterating the same
returned object a second time yields `[]`, not the same chunks again. -/
theorem chunked_tokens_gen_not_reiterable_cex :
    chunked_tokens_gen charEncode "ab" 2 = .ok { chunks := [[97, 98]], pos := 0 } ∧
    (TokenGen.mk [[97, 98]] 0).iterate.1 = [[97, 98]] ∧
    ((TokenGen.mk [[97, 98]] 0).iterate.2).iterate.1 = [] ∧
    ((TokenGen.mk [[97, 98]] 0).iterate.2).iterate.1 ≠ (TokenGen.mk [[97, 98]] 0).iterate.1 := by
  decide

/-- C7 (amended): the splitter returns a finite, single-pass sequence: one
full iteration of the fresh generator yields exactly the whole chunk list,
and a second iteration of the same returned object yields nothing. -/
theorem chunked_tokens_gen_single_pass (encode : String → List Nat)
    (text : String) (M : Int) (g : TokenGen)
    (h : chunked_tokens_gen encode text M = .ok g) :
    g.iterate.1 = g.chunks ∧ (g.iterate.2).iterate.1 = [] := by
  unfold chunked_tokens_gen at h
  cases hc : chunked_tokens encode text M with
  | error e => rw [hc] at h; cases h
  | ok cs =>
    rw [hc] at h
    cases h
    exact ⟨by simp [TokenGen.iterate], by simp [TokenGen.iterate]⟩

/-- Witness for `chunked_tokens_gen_single_pass` at text `"abc"`, `M = 2`. -/
theorem chunked_tokens_gen_single_pass_witness :
    (TokenGen.mk [[97, 98], [99]] 0).iterate.1 = (TokenGen.mk [[97, 98], [99]] 0).chunks ∧
      ((TokenGen.mk [[97, 98], [99]] 0).iterate.2).iterate.1 = [] :=
  chunked_tokens_gen_single_pass charEncode "abc" 2 _ (by decide)

/-- The `for chunk in chunked_tokens(...)` loop body of
`len_safe_get_embedding`: append the embedding of the chunk (a call to
`generate_embeddings`, i.e. the embedding service `embed`, which may raise)
and the tiktoken decoding of the chunk to the two accumulator lists. -/
def lenSafeAux {V : Type u} (embed : List Nat → Except String V)
    (decode : List Nat → String) :
    List (List Nat) → List V → List String → Except String (List V × List String)
  | [], es, ts => .ok (es, ts)
  | c :: rest, es, ts =>
    match embed c with
    | .error e => .error e
    | .ok v => lenSafeAux embed decode rest (es ++ [v]) (ts ++ [decode c])

/-- `len_safe_get_embedding(text, model, max_tokens, encoding_name)` from the
notebook: chunk the text, embed every chunk, decode every chunk back to text
and return the pair of lists `(chunk_embeddings, chunk_texts)`.  The function
has no combine/average parameter: the list is always returned unmodified. -/
def len_safe_get_embedding {V : Type u} (encode : String → List Nat)
    (decode : List Nat → String) (embed : List Nat → Except String V)
    (text : String) (max_tokens : Int) : Except String (List V × List String) :=
  match chunked_tokens encode text max_tokens with
  | .error e => .error e
  | .ok chunks => lenSafeAux embed decode chunks [] []

theorem lenSafeAux_ok_of_forall {V : Type u} (embed : List Nat → Except String V)
    (decode : List Nat → String) (f : List Nat → V) :
    ∀ (chunks : List (List Nat)) (es : List V) (ts : List String),
      (∀ c ∈ chunks, embed c = .ok (f c)) →
      lenSafeAux embed decode chunks es ts =
        .ok (es ++ chunks.map f, ts ++ chunks.map decode) := by
  intro chunks
  induction chunks with
  | nil => intro es ts _; simp [lenSafeAux]
  | cons c rest ih =>
    intro es ts hall
    have hc : embed c = .ok (f c) := hall c (List.mem_cons_self c rest)
    have hrest : ∀ x ∈ rest, embed x = .ok (f x) :=
      fun x hx => hall x (List.mem_cons_of_mem c hx)
    simp only [lenSafeAux, hc]
    rw [ih _ _ hrest]
    simp

/-- C4: when every per-chunk embedding request succeeds,
`len_safe_get_embedding` returns exactly one embedding vector and one decoded
chunk text per chunk, index-for-index: the vector list is the chunk list
mapped through the embedding service and the text list is the chunk list
mapped through the decoder, both of the same length as the chunk list. -/
theorem len_safe_get_embedding_index_correspondence {V : Type u}
    (encode : String → List Nat) (decode : List Nat → String)
    (embed : List Nat → Except String V) (f : List Nat → V)
    (text : String) (M : Int) (chunks : List (List Nat))
    (hch : chunked_tokens encode text M = .ok chunks)
    (hemb : ∀ c ∈ chunks, embed c = .ok (f c)) :
    len_safe_get_embedding encode decode embed text M =
      .ok (chunks.map f, chunks.map decode) ∧
    (chunks.map f).length = chunks.length ∧
    (chunks.map decode).length = chunks.length := by
  refine ⟨?_, by simp, by simp⟩
  unfold len_safe_get_embedding
  rw [hch]
  simpa using lenSafeAux_ok_of_forall embed decode f chunks [] [] hemb

/-- A concrete stand-in embedding service for closed evaluations: the vector
is the sum of the token ids of the chunk. -/
def sumEmbed (c : List Nat) : Except String Nat :=
  .ok (c.foldl (· + ·) 0)

/-- Witness for `len_safe_get_embedding_index_correspondence` at text
`"abc"`, `M = 2`. -/
theorem len_safe_get_embedding_index_correspondence_witness :
    len_safe_get_embedding charEncode charDecode sumEmbed "abc" 2 =
      .ok ([[97, 98], [99]].map (fun c => c.foldl (· + ·) 0),
           [[97, 98], [99]].map charDecode) ∧
    ([[97, 98], [99]].map (fun c => List.foldl (· + ·) 0 c)).length =
      ([[97, 98], [99]] : List (List Nat)).length ∧
    (([[97, 98], [99]] : List (List Nat)).map charDecode).length =
      ([[97, 98], [99]] : List (List Nat)).length :=
  len_safe_get_embedding_index_correspondence charEncode charDecode sumEmbed
    (fun c => c.foldl (· + ·) 0) "abc" 2 [[97, 98], [99]] (by decide)
    (by decide)

/-- A concrete rational-vector embedding service used to evaluate the C1
divergence: each chunk embeds to the one-entry vector holding its first
token id. -/
def ratEmbed (c : List Nat) : Except String (List ℚ) :=
  .ok [(c.headD 0 : ℚ)]

/-- C1 (code bug): the notebook text above `len_safe_get_embedding` documents
an average flag returning the token-count-weighted average of the chunk
embeddings, but the function has no such parameter and never combines.  On
the two-chunk input `"ab"` with `max_tokens = 1` it returns the two per-chunk
vectors `[[97], [98]]` unchanged — a list of length 2, never the single
combined vector the claim describes. -/
theorem len_safe_get_embedding_no_combine_cex :
    len_safe_get_embedding charEncode charDecode ratEmbed "ab" 1 =
      .ok ([[(97 : ℚ)], [(98 : ℚ)]], ["a", "b"]) ∧
    ([[(97 : ℚ)], [(98 : ℚ)]] : List (List ℚ)).length = 2 ∧
    ∀ v : List ℚ, ([[(97 : ℚ)], [(98 : ℚ)]] : List (List ℚ)) ≠ [v] := by
  refine ⟨by decide, rfl, ?_⟩
  intro v h
  cases h

/-- A chat message as built by `categorize_text`: a role tag and a content
string. -/
structure Message where
  role : String
  content : String
deriving DecidableEq

/-- The messages list `categorize_text` sends to the chat-completion service:
a system prompt holding the comma-joined category vocabulary, then the user
text. -/
def categorize_messages (categories : List String) (text : String) : List Message :=
  [{ role := "system",
     content := "You are an expert in LLMs, and you will be given text that corresponds to an article in OpenAI\x27s documentation.\n         Categorize the document into one of these categories: " ++ String.intercalate ", " categories ++ ". Only respond with the category name and nothing else." },
   { role := "user", content := text }]

/-- `categorize_text(text, categories)` from the notebook: call the
chat-completion service (`complete`); the whole call sits in a
`try/except Exception` that prints the error and returns `None`, so a failed
call yields `none` instead of propagating. -/
def categorize_text (complete : List Message → Except String String)
    (text : String) (categories : List String) : Option String :=
  match complete (categorize_messages categories text) with
  | .ok category => some category
  | .error _ => none

/-- One output row appended by `process_file`.  The source stores the JSON
serialization of each vector (`json.dumps`); the serialization is injective,
so the row here keeps the vector itself. -/
structure Row (V : Type u) where
  id : String
  vector_id : String
  title : String
  text : String
  title_vector : V
  content_vector : V
  category : Option String
deriving DecidableEq

/-- The f-string `f"{idx}_{i}"` used for `id` and `vector_id`. -/
def rowId (idx i : Nat) : String :=
  toString idx ++ "_" ++ toString i

/-- Python list indexing `xs[i]`: raises `IndexError` when out of range. -/
def listIndex {α : Type u} (xs : List α) (i : Nat) : Except String α :=
  match xs.get? i with
  | some x => .ok x
  | none => .error "IndexError: list index out of range"

/-- The `for i, content_vector in enumerate(content_vectors)` loop of
`process_file`: build one row per content vector, always reading
`title_text[0]` and `title_vectors[0]` (the chunks of the title beyond the
first are never read). -/
def buildRowsAux {V : Type u} (idx : Nat) (title_text : List String)
    (title_vectors : List V) (content_text : List String)
    (category : Option String) : Nat → List V → Except String (List (Row V))
  | _, [] => .ok []
  | i, cv :: rest =>
    match listIndex title_text 0 with
    | .error e => .error e
    | .ok t0 =>
      match listIndex content_text i with
      | .error e => .error e
      | .ok ct =>
        match listIndex title_vectors 0 with
        | .error e => .error e
        | .ok v0 =>
          match buildRowsAux idx title_text title_vectors content_text category
              (i + 1) rest with
          | .error e => .error e
          | .ok rows =>
            .ok ({ id := rowId idx i, vector_id := rowId idx i, title := t0,
                   text := ct, title_vector := v0, content_vector := cv,
                   category := category } :: rows)

/-- A document handed to `process_file`: the file name (used as the title)
and its extracted text content.  The driver only submits `.txt`/`.pdf`
files, whose reading/extraction is outside this model. -/
structure DocFile where
  name : String
  content : String

/-- `EMBEDDING_CTX_LENGTH` from the notebook. -/
def EMBEDDING_CTX_LENGTH : Int := 8191

/-- `process_file(file_path, idx, categories, embeddings_model)` from the
notebook: embed the title (the file name), embed the content, categorize the
space-joined content chunk texts, and build one row per content chunk.  Any
exception escaping the embedding calls or the row loop propagates to the
caller; a categorization failure does not (it is caught inside
`categorize_text`). -/
def process_file {V : Type u} (encode : String → List Nat)
    (decode : List Nat → String) (embed : List Nat → Except String V)
    (complete : List Message → Except String String) (file : DocFile)
    (idx : Nat) (categories : List String) : Except String (List (Row V)) :=
  match len_safe_get_embedding encode decode embed file.name EMBEDDING_CTX_LENGTH with
  | .error e => .error e
  | .ok (title_vectors, title_text) =>
    match len_safe_get_embedding encode decode embed file.content EMBEDDING_CTX_LENGTH with
    | .error e => .error e
    | .ok (content_vectors, content_text) =>
      buildRowsAux idx title_text title_vectors content_text
        (categorize_text complete (String.intercalate " " content_text) categories)
        0 content_vectors

/-- Chunking succeeds whenever `1 ≤ M`, returning the batched token list. -/
theorem chunked_tokens_pos_ok (encode : String → List Nat) (text : String)
    (M : Int) (h : 1 ≤ M) :
    chunked_tokens encode text M =
      .ok (chunkListAux M.toNat (encode text).length (encode text)) := by
  unfold chunked_tokens batched
  rw [if_neg (by omega)]

/-- A text with a non-empty token sequence yields at least one chunk. -/
theorem chunked_tokens_ne_nil (encode : String → List Nat) (text : String)
    (M : Int) (cs : List (List Nat)) (h : chunked_tokens encode text M = .ok cs)
    (hne : encode text ≠ []) : cs ≠ [] := by
  intro hnil
  apply hne
  have hj := batched_ok_flatten h
  rw [hnil] at hj
  simpa using hj.symm

theorem lenSafeAux_prefix {V : Type u} (embed : List Nat → Except String V)
    (decode : List Nat → String) :
    ∀ (chunks : List (List Nat)) (es : List V) (ts : List String)
      (E : List V) (T : List String),
      lenSafeAux embed decode chunks es ts = .ok (E, T) → es <+: E ∧ ts <+: T := by
  intro chunks
  induction chunks with
  | nil =>
    intro es ts E T h
    simp only [lenSafeAux, Except.ok.injEq, Prod.mk.injEq] at h
    exact ⟨h.1 ▸ List.prefix_refl _, h.2 ▸ List.prefix_refl _⟩
  | cons c rest ih =>
    intro es ts E T h
    cases hc : embed c with
    | error e => simp only [lenSafeAux, hc] at h; cases h
    | ok v =>
      simp only [lenSafeAux, hc] at h
      have hp := ih (es ++ [v]) (ts ++ [decode c]) E T h
      exact ⟨(List.prefix_append es [v]).trans hp.1,
        (List.prefix_append ts [decode c]).trans hp.2⟩

theorem lenSafeAux_cons_inv {V : Type u} (embed : List Nat → Except String V)
    (decode : List Nat → String) (c : List Nat) (cs : List (List Nat))
    (es : List V) (ts : List String) (E : List V) (T : List String)
    (h : lenSafeAux embed decode (c :: cs) es ts = .ok (E, T)) :
    ∃ v, embed c = .ok v ∧
      lenSafeAux embed decode cs (es ++ [v]) (ts ++ [decode c]) = .ok (E, T) := by
  cases hc : embed c with
  | error e => simp only [lenSafeAux, hc] at h; cases h
  | ok v =>
    refine ⟨v, rfl, ?_⟩
    simpa only [lenSafeAux, hc] using h

theorem buildRowsAux_inv {V : Type u} (idx : Nat) (T : List String)
    (Vv : List V) (CT : List String) (cat : Option String) :
    ∀ (cvs : List V) (i : Nat) (rows : List (Row V)),
      buildRowsAux idx T Vv CT cat i cvs = .ok rows →
      ∀ r ∈ rows, listIndex T 0 = .ok r.title ∧
        listIndex Vv 0 = .ok r.title_vector ∧ r.category = cat := by
  intro cvs
  induction cvs with
  | nil =>
    intro i rows h r hr
    simp only [buildRowsAux, Except.ok.injEq] at h
    subst h
    simp at hr
  | cons cv rest ih =>
    intro i rows h r hr
    cases h0 : listIndex T 0 with
    | error e => simp only [buildRowsAux, h0] at h; cases h
    | ok t0 =>
      cases h1 : listIndex CT i with
      | error e => simp only [buildRowsAux, h0, h1] at h; cases h
      | ok ct =>
        cases h2 : listIndex Vv 0 with
        | error e => simp only [buildRowsAux, h0, h1, h2] at h; cases h
        | ok v0 =>
          cases h3 : buildRowsAux idx T Vv CT cat (i + 1) rest with
          | error e => simp only [buildRowsAux, h0, h1, h2, h3] at h; cases h
          | ok rows2 =>
            simp only [buildRowsAux, h0, h1, h2, h3, Except.ok.injEq] at h
            subst h
            rcases List.mem_cons.mp hr with hr | hr
            · subst hr
              exact ⟨rfl, rfl, rfl⟩
            · have hres := ih (i + 1) rows2 h3 r hr
              rw [h0, h2] at hres
              exact hres

theorem buildRowsAux_ok {V : Type u} (idx : Nat) (T : List String)
    (Vv : List V) (CT : List String) (cat : Option String) (t0 : String) (v0 : V)
    (hT : T.get? 0 = some t0) (hV : Vv.get? 0 = some v0) :
    ∀ (cvs : List V) (i : Nat), i + cvs.length ≤ CT.length →
      ∃ rows, buildRowsAux idx T Vv CT cat i cvs = .ok rows ∧
        ∀ r ∈ rows, r.title = t0 ∧ r.title_vector = v0 ∧ r.category = cat := by
  intro cvs
  induction cvs with
  | nil =>
    intro i _
    exact ⟨[], rfl, by simp⟩
  | cons cv rest ih =>
    intro i h
    have hi : i < CT.length := by
      simp only [List.length_cons] at h
      omega
    have hct : CT.get? i = some (CT.get ⟨i, hi⟩) := List.get?_eq_get hi
    obtain ⟨rows, hrows, hall⟩ := ih (i + 1) (by
      simp only [List.length_cons] at h
      omega)
    refine ⟨{ id := rowId idx i, vector_id := rowId idx i, title := t0,
              text := CT.get ⟨i, hi⟩, title_vector := v0, content_vector := cv,
              category := cat } :: rows, ?_, ?_⟩
    · simp only [buildRowsAux, listIndex, hT, hct, hV, hrows]
    · intro r hr
      rcases List.mem_cons.mp hr with hr | hr
      · subst hr
        exact ⟨rfl, rfl, rfl⟩
      · exact hall r hr

/-- C9: a failing chat-completion call is caught inside `categorize_text`,
which returns `none` instead of propagating; `process_file` then still
succeeds, emitting every row with `category = none`. -/
theorem categorize_failure_yields_none_rows {V : Type u}
    (encode : String → List Nat) (decode : List Nat → String)
    (embed : List Nat → Except String V) (f : List Nat → V)
    (complete : List Message → Except String String) (err : String)
    (file : DocFile) (idx : Nat) (cats : List String)
    (hembed : ∀ c, embed c = .ok (f c))
    (htitle : encode file.name ≠ [])
    (hfail : ∀ m, complete m = .error err) :
    (∀ t cs, categorize_text complete t cs = none) ∧
    ∃ rows, process_file encode decode embed complete file idx cats = .ok rows ∧
      ∀ r ∈ rows, r.category = none := by
  refine ⟨fun t cs => by unfold categorize_text; rw [hfail], ?_⟩
  have h81 : (1 : Int) ≤ EMBEDDING_CTX_LENGTH := by decide
  have htcs := chunked_tokens_pos_ok encode file.name EMBEDDING_CTX_LENGTH h81
  have hccs := chunked_tokens_pos_ok encode file.content EMBEDDING_CTX_LENGTH h81
  set tcs := chunkListAux EMBEDDING_CTX_LENGTH.toNat (encode file.name).length
    (encode file.name) with htcs_def
  set ccs := chunkListAux EMBEDDING_CTX_LENGTH.toNat (encode file.content).length
    (encode file.content) with hccs_def
  have htne : tcs ≠ [] := chunked_tokens_ne_nil encode file.name _ _ htcs htitle
  obtain ⟨c0, crest, hc0⟩ := List.exists_cons_of_ne_nil htne
  have hT : len_safe_get_embedding encode decode embed file.name EMBEDDING_CTX_LENGTH =
      .ok (tcs.map f, tcs.map decode) := by
    unfold len_safe_get_embedding
    rw [htcs]
    simpa using lenSafeAux_ok_of_forall embed decode f tcs [] [] (fun c _ => hembed c)
  have hC : len_safe_get_embedding encode decode embed file.content EMBEDDING_CTX_LENGTH =
      .ok (ccs.map f, ccs.map decode) := by
    unfold len_safe_get_embedding
    rw [hccs]
    simpa using lenSafeAux_ok_of_forall embed decode f ccs [] [] (fun c _ => hembed c)
  have hcat : categorize_text complete
      (String.intercalate " " (ccs.map decode)) cats = none := by
    unfold categorize_text
    rw [hfail]
  obtain ⟨rows, hrows, hall⟩ :=
    buildRowsAux_ok idx (tcs.map decode) (tcs.map f) (ccs.map decode) none
      (decode c0) (f c0) (by rw [hc0]; rfl) (by rw [hc0]; rfl)
      (ccs.map f) 0 (by simp)
  refine ⟨rows, ?_, fun r hr => (hall r hr).2.2⟩
  unfold process_file
  rw [hT, hC]
  show buildRowsAux idx (tcs.map decode) (tcs.map f) (ccs.map decode)
    (categorize_text complete (String.intercalate " " (ccs.map decode)) cats)
    0 (ccs.map f) = .ok rows
  rw [hcat]
  exact hrows

/-- The category vocabulary `categories` from the notebook. -/
def categories : List String :=
  ["authentication", "models", "techniques", "tools", "setup", "billing_limits", "other"]

/-- Witness for `categorize_failure_yields_none_rows`: the service always
raises, the document still yields its rows, all with `category = none`. -/
theorem categorize_failure_yields_none_rows_witness :
    (∀ t cs, categorize_text (fun _ => .error "boom") t cs = none) ∧
    ∃ rows, process_file charEncode charDecode sumEmbed (fun _ => .error "boom")
        ⟨"f.txt", "ab"⟩ 0 categories = .ok rows ∧
      ∀ r ∈ rows, r.category = none :=
  categorize_failure_yields_none_rows charEncode charDecode sumEmbed
    (fun c => c.foldl (· + ·) 0) (fun _ => .error "boom") "boom"
    ⟨"f.txt", "ab"⟩ 0 categories (fun _ => rfl) (by decide) (fun _ => rfl)

/-- C10: every row emitted by `process_file` carries the same title text and
title vector, namely the decoding and the embedding of the first title chunk
only; title chunks beyond the first are never read. -/
theorem process_file_title_from_first_chunk {V : Type u}
    (encode : String → List Nat) (decode : List Nat → String)
    (embed : List Nat → Except String V)
    (complete : List Message → Except String String)
    (file : DocFile) (idx : Nat) (cats : List String) (rows : List (Row V))
    (c0 : List Nat) (crest : List (List Nat))
    (hch : chunked_tokens encode file.name EMBEDDING_CTX_LENGTH = .ok (c0 :: crest))
    (h : process_file encode decode embed complete file idx cats = .ok rows) :
    ∃ v0, embed c0 = .ok v0 ∧
      ∀ r ∈ rows, r.title = decode c0 ∧ r.title_vector = v0 := by
  unfold process_file at h
  cases hT : len_safe_get_embedding encode decode embed file.name EMBEDDING_CTX_LENGTH with
  | error e => rw [hT] at h; cases h
  | ok p =>
    obtain ⟨Vt, Tt⟩ := p
    rw [hT] at h
    unfold len_safe_get_embedding at hT
    rw [hch] at hT
    obtain ⟨v0, hv0, hrest⟩ := lenSafeAux_cons_inv embed decode c0 crest [] [] Vt Tt hT
    simp only [List.nil_append] at hrest
    have hpre := lenSafeAux_prefix embed decode crest [v0] [decode c0] Vt Tt hrest
    obtain ⟨e1, he1⟩ := hpre.1
    obtain ⟨e2, he2⟩ := hpre.2
    cases hC : len_safe_get_embedding encode decode embed file.content EMBEDDING_CTX_LENGTH with
    | error e => rw [hC] at h; cases h
    | ok q =>
      obtain ⟨Vc, Tc⟩ := q
      rw [hC] at h
      refine ⟨v0, hv0, ?_⟩
      intro r hr
      obtain ⟨ht, hv, _⟩ := buildRowsAux_inv idx Tt Vt Tc _ Vc 0 rows h r hr
      rw [← he2] at ht
      rw [← he1] at hv
      simp only [List.singleton_append, listIndex, List.get?_cons_zero,
        Except.ok.injEq] at ht hv
      exact ⟨ht.symm, hv.symm⟩

/-- Witness for `process_file_title_from_first_chunk` on a one-chunk title. -/
theorem process_file_title_from_first_chunk_witness :
    ∃ v0, sumEmbed [116] = .ok v0 ∧
      ∀ r ∈ [({ id := "0_0", vector_id := "0_0", title := "t", text := "ab",
                title_vector := 116, content_vector := 195,
                category := some "tools" } : Row Nat)],
        r.title = charDecode [116] ∧ r.title_vector = v0 :=
  process_file_title_from_first_chunk charEncode charDecode sumEmbed
    (fun _ => .ok "tools") ⟨"t", "ab"⟩ 0 categories _ [116] []
    (by decide) (by decide)

/-- The rows a future contributes when collected: its result rows on
success, nothing on failure. -/
def rowsOf {V : Type u} (results : List (Except String (List (Row V))))
    (i : Nat) : List (Row V) :=
  match results.getD i (.error "missing future") with
  | .ok rows => rows
  | .error _ => []

/-- The error a future reports when collected, if any. -/
def errOf {V : Type u} (results : List (Except String (List (Row V))))
    (i : Nat) : Option String :=
  match results.getD i (.error "missing future") with
  | .ok _ => none
  | .error e => some e

/-- The `for future in concurrent.futures.as_completed(futures)` loop of the
notebook: for each completed future, `try` extending `data` with its rows,
`except` reporting the error and moving on.  `order` is the completion
order, an arbitrary permutation of the submitted futures. -/
def collectAux {V : Type u} (results : List (Except String (List (Row V)))) :
    List Nat → List (Row V) × List String → List (Row V) × List String
  | [], acc => acc
  | i :: rest, acc =>
    match results.getD i (.error "missing future") with
    | .ok rows => collectAux results rest (acc.1 ++ rows, acc.2)
    | .error e => collectAux results rest (acc.1, acc.2 ++ [e])

/-- Run the collection loop from the empty `data` list: returns the
collected rows and the reported per-document errors. -/
def process_files_collect {V : Type u}
    (results : List (Except String (List (Row V)))) (order : List Nat) :
    List (Row V) × List String :=
  collectAux results order ([], [])

/-- One future per file, submitted with its enumeration index, as in
`{executor.submit(process_file, file_path, idx, ...): idx for idx, file_path
in enumerate(files)}`. -/
def process_files {V : Type u} (encode : String → List Nat)
    (decode : List Nat → String) (embed : List Nat → Except String V)
    (complete : List Message → Except String String) (files : List DocFile)
    (cats : List String) : List (Except String (List (Row V))) :=
  files.enum.map (fun p => process_file encode decode embed complete p.2 p.1 cats)

theorem collectAux_spec {V : Type u}
    (results : List (Except String (List (Row V)))) :
    ∀ (order : List Nat) (acc : List (Row V) × List String),
      collectAux results order acc =
        (acc.1 ++ (order.map (rowsOf results)).flatten,
         acc.2 ++ order.filterMap (errOf results)) := by
  intro order
  induction order with
  | nil => intro acc; simp [collectAux]
  | cons i rest ih =>
    intro acc
    cases hr : results.getD i (.error "missing future") with
    | ok rows =>
      simp only [collectAux, hr]
      rw [ih]
      rw [List.getD_eq_getElem?_getD] at hr
      simp [rowsOf, errOf, hr, List.append_assoc]
    | error e =>
      simp only [collectAux, hr]
      rw [ih]
      rw [List.getD_eq_getElem?_getD] at hr
      simp [rowsOf, errOf, hr, List.append_assoc]

/-- C6 (amended): in the bulk processing loop, whatever the completion
order, each future that returns rows contributes them as one contiguous,
order-preserving block of the collected `data`, and each future that raises
has its error caught and reported; a failing document never removes the
rows of another document. -/
theorem process_files_collect_failure_isolation {V : Type u}
    (results : List (Except String (List (Row V)))) (order : List Nat) :
    (∀ i rows, i ∈ order → results.getD i (.error "missing future") = .ok rows →
      rows <:+: (process_files_collect results order).1) ∧
    (∀ j e, j ∈ order → results.getD j (.error "missing future") = .error e →
      e ∈ (process_files_collect results order).2) := by
  constructor
  · intro i rows hmem hok
    obtain ⟨s, t, hst⟩ := List.append_of_mem hmem
    subst hst
    unfold process_files_collect
    rw [collectAux_spec]
    rw [List.getD_eq_getElem?_getD] at hok
    refine ⟨(s.map (rowsOf results)).flatten, (t.map (rowsOf results)).flatten, ?_⟩
    simp [rowsOf, hok, List.append_assoc]
  · intro j e hmem herr
    unfold process_files_collect
    rw [collectAux_spec]
    simp only [List.nil_append]
    rw [List.getD_eq_getElem?_getD] at herr
    exact List.mem_filterMap.mpr ⟨j, hmem, by simp [errOf, herr]⟩

/-- The three files of the C6 scenario. -/
def cexFiles : List DocFile :=
  [⟨"f1.txt", "aaa"⟩, ⟨"f2.txt", "bbb"⟩, ⟨"f3.txt", "ccc"⟩]

/-- A classification service that raises exactly on the content of the
second file and otherwise answers a category label. -/
def cexComplete (m : List Message) : Except String String :=
  if (m.getD 1 ⟨"", ""⟩).content = "bbb" then .error "503 service unavailable"
  else .ok "tools"

/-- Bulk results for the scenario in which file 2 raises a service error
during classification. -/
def cexResults : List (Except String (List (Row Nat))) :=
  process_files charEncode charDecode sumEmbed cexComplete cexFiles categories

/-- C6 counterexample: when file 2 raises a service error during
classification, no failure is reported for file 2 — the error is caught
inside `categorize_text`, and file 2 still contributes its rows, with
`category = None`.  The reported-failure list of the run is empty. -/
theorem process_files_classification_error_no_failure_cex :
    cexComplete (categorize_messages categories "bbb") = .error "503 service unavailable" ∧
    (process_files_collect cexResults [0, 1, 2]).2 = [] ∧
    ∃ r ∈ (process_files_collect cexResults [0, 1, 2]).1,
      r.id = "1_0" ∧ r.category = none ∧ r.title = "f2.txt" := by
  decide

/-- An embedding service that raises exactly on the content tokens of the
second file. -/
def cexEmbedFail (c : List Nat) : Except String Nat :=
  if c = charEncode "bbb" then .error "503 embedding failed"
  else .ok (c.foldl (· + ·) 0)

/-- Bulk results for the amended scenario in which file 2 raises a service
error during embedding (an error that does escape `process_file`). -/
def cexResultsEmbedFail : List (Except String (List (Row Nat))) :=
  process_files charEncode charDecode cexEmbedFail (fun _ => .ok "tools")
    cexFiles categories

/-- Witness for `process_files_collect_failure_isolation`: with file 2
failing during embedding and completion order `[2, 0, 1]`, file 1 still
contributes its complete row block and the file 2 error is reported. -/
theorem process_files_collect_failure_isolation_witness :
    [({ id := "0_0", vector_id := "0_0", title := "f1.txt", text := "aaa",
        title_vector := 549, content_vector := 291,
        category := some "tools" } : Row Nat)] <:+:
      (process_files_collect cexResultsEmbedFail [2, 0, 1]).1 ∧
    "503 embedding failed" ∈ (process_files_collect cexResultsEmbedFail [2, 0, 1]).2 :=
  ⟨(process_files_collect_failure_isolation cexResultsEmbedFail [2, 0, 1]).1 0 _
      (by decide) (by decide),
    (process_files_collect_failure_isolation cexResultsEmbedFail [2, 0, 1]).2 1
      "503 embedding failed" (by decide) (by decide)⟩

end BigQueryRag
